import Mathlib

/-!
Shallow embedding of the `levenberg-marquardt` crate (src/lib.rs) and proofs
about its specification.

The crate exposes a single function `optimize` generic over a scalar type
`N : RealField`, a model type `M`, dimensions `P` (parameters), `S` (samples),
`J` (residual rows per sample), and three caller-supplied closures.  The dense
linear-algebra primitives (matrix product, transpose, inversion, squared norm,
diagonal access) come from `nalgebra` and are external collaborators; here they
are realised by Mathlib matrices over an arbitrary linear ordered field `α`,
with `Fin p`, `Fin j`, `Fin s` indexing.  The `is_finite` test supplied by the
`RealField` bound on the scalar is kept as an explicit boolean predicate so the
filtering branch of the source survives in the embedding (for an exact field it
is constantly `true`).
-/

namespace LM

/-- The configuration record, field for field from `Config<N>` in src/lib.rs
(the source spells the field `lambda_convege`; we keep the spelling). -/
structure Config (α : Type) where
  max_iterations : ℕ
  consecutive_divergence_limit : ℕ
  initial_lambda : α
  lambda_convege : α
  lambda_diverge : α
  threshold : α

variable {α : Type} [LinearOrderedField α] {M : Type} {p j s : ℕ}

/-- The caller-supplied closures of `optimize` (`apply_delta`, `residuals`,
`jacobians`), together with the scalar type's finiteness test `is_finite`
coming from the `RealField` bound on `N`.  The lazy Jacobian iterator is
embedded as the list of matrices it yields, in order. -/
structure Problem (α : Type) [LinearOrderedField α] (M : Type) (p j s : ℕ) where
  apply_delta : M → (Fin p → α) → M
  residuals : M → Matrix (Fin j) (Fin s) α
  jacobians : M → List (Matrix (Fin p) (Fin j) α)
  is_finite : α → Bool

/-- `Matrix::norm_squared` of nalgebra on a real scalar: the sum of the squares
of all entries of the matrix. -/
def norm_squared (m : Matrix (Fin j) (Fin s) α) : α :=
  ∑ i : Fin j, ∑ k : Fin s, m i k * m i k

/-- `Matrix::len` of nalgebra: the number of scalar entries (rows × columns). -/
def mat_len (_ : Matrix (Fin j) (Fin s) α) : ℕ := j * s

/-- `Matrix::column_iter` of nalgebra: the columns of the matrix, in order. -/
def column_iter (m : Matrix (Fin j) (Fin s) α) : List (Fin j → α) :=
  (List.finRange s).map fun k i => m i k

/-- `Matrix::map_diagonal`: the vector obtained by applying `f` to each
diagonal entry. -/
def map_diagonal (h : Matrix (Fin p) (Fin p) α) (f : α → α) : Fin p → α :=
  fun i => f (h i i)

/-- `Matrix::set_diagonal`: replace the diagonal of `h` by the vector `d`,
leaving off-diagonal entries unchanged. -/
def set_diagonal (h : Matrix (Fin p) (Fin p) α) (d : Fin p → α) :
    Matrix (Fin p) (Fin p) α :=
  Matrix.of fun i k => if i = k then d i else h i k

/-- `Matrix::try_inverse` of nalgebra: the inverse when the matrix is
invertible (nonzero determinant), `none` otherwise. -/
def try_inverse (A : Matrix (Fin p) (Fin p) α) :
    Option (Matrix (Fin p) (Fin p) α) :=
  if A.det = 0 then none else some (A.det⁻¹ • A.adjugate)

/-- The fold in src/lib.rs lines 160–168: zip the Jacobian sequence with the
residual-matrix columns and accumulate the Gauss-Newton Hessian approximation
and the gradient, starting from zero. -/
def assemble (jacs : List (Matrix (Fin p) (Fin j) α))
    (res : Matrix (Fin j) (Fin s) α) :
    Matrix (Fin p) (Fin p) α × (Fin p → α) :=
  (jacs.zip (column_iter res)).foldl
    (fun hg jr => (hg.1 + jr.1 * jr.1.transpose, hg.2 + jr.1.mulVec jr.2))
    (0, 0)

/-- The damped Hessian of src/lib.rs lines 173–176: clone the Hessian, map the
diagonal through `n * (lam + 1)`, and write it back. -/
def hessian_lambda_diag (hessian : Matrix (Fin p) (Fin p) α) (lam : α) :
    Matrix (Fin p) (Fin p) α :=
  set_diagonal hessian (map_diagonal hessian fun n => n * (lam + 1))

/-- The tuple `(lam, ges, res, sum)` produced by the trial evaluator
`lam_ges_res_sum` in src/lib.rs. -/
structure Vars (α : Type) [LinearOrderedField α] (M : Type) (j s : ℕ) where
  lam : α
  ges : M
  res : Matrix (Fin j) (Fin s) α
  sum : α

/-- The trial evaluator `lam_ges_res_sum` of src/lib.rs lines 172–191: damp the
Hessian, try to invert it, solve for delta, apply the delta, recompute the
residuals and sum-of-squares, and reject the candidate when the sum is not
finite. -/
def lam_ges_res_sum (pb : Problem α M p j s) (guess : M)
    (hessian : Matrix (Fin p) (Fin p) α) (gradients : Fin p → α) (lam : α) :
    Option (Vars α M j s) :=
  let delta := (try_inverse (hessian_lambda_diag hessian lam)).map
    fun inv_jjl => inv_jjl.mulVec gradients
  let vars := delta.map fun delta =>
    let ges := pb.apply_delta guess delta
    let res := pb.residuals ges
    let sum := norm_squared res
    Vars.mk lam ges res sum
  vars.filter fun vars => pb.is_finite vars.sum

/-- The candidate selection of src/lib.rs lines 194–198: when both trials
succeed keep the one with the smaller sum (the second on a tie), when one
succeeds keep it, otherwise there is no candidate. -/
def select_vars (a b : Option (Vars α M j s)) : Option (Vars α M j s) :=
  match a, b with
  | some s_vars, some o_vars =>
      some (if s_vars.sum < o_vars.sum then s_vars else o_vars)
  | some vars, none => some vars
  | none, some vars => some vars
  | none, none => none

/-- The mutable local state of one run of `optimize`. -/
structure State (α : Type) [LinearOrderedField α] (M : Type) (j s : ℕ) where
  lambda : α
  guess : M
  res : Matrix (Fin j) (Fin s) α
  sum_of_squares : α
  consecutive_divergences : ℕ

/-- The candidate chosen on one iteration (`new_vars` in src/lib.rs),
as a function of the current state. -/
def new_vars (config : Config α) (pb : Problem α M p j s)
    (st : State α M j s) : Option (Vars α M j s) :=
  let smaller_lambda := st.lambda * config.lambda_convege
  let hg := assemble (pb.jacobians st.guess) st.res
  select_vars (lam_ges_res_sum pb st.guess hg.1 hg.2 smaller_lambda)
    (lam_ges_res_sum pb st.guess hg.1 hg.2 st.lambda)

/-- One iteration of the `for` loop body of src/lib.rs lines 155–220 (the two
termination checks after it are part of `optimize_loop`). -/
def step (config : Config α) (pb : Problem α M p j s) (st : State α M j s) :
    State α M j s :=
  match new_vars config pb st with
  | some v =>
      if v.sum > st.sum_of_squares then
        { st with
          lambda := st.lambda * config.lambda_diverge
          consecutive_divergences := st.consecutive_divergences + 1 }
      else
        { lambda := v.lam
          guess := v.ges
          res := v.res
          sum_of_squares := v.sum
          consecutive_divergences := 0 }
  | none =>
      { st with
        lambda := st.lambda * config.lambda_diverge
        consecutive_divergences := st.consecutive_divergences + 1 }

/-- The `for _ in 0..config.max_iterations` loop of src/lib.rs, with the two
`break` checks of lines 222–230 in their source order: first the divergence
limit, then the threshold test. -/
def optimize_loop (config : Config α) (pb : Problem α M p j s) (total : α) :
    ℕ → State α M j s → State α M j s
  | 0, st => st
  | n + 1, st =>
      let st2 := step config pb st
      if st2.consecutive_divergences = config.consecutive_divergence_limit then
        st2
      else if st2.sum_of_squares < config.threshold * total then
        st2
      else
        optimize_loop config pb total n st2

/-- The number of times the loop body of `optimize_loop` executes (each
execution performs exactly one Hessian/gradient assembly). -/
def optimize_loop_count (config : Config α) (pb : Problem α M p j s)
    (total : α) : ℕ → State α M j s → ℕ
  | 0, _ => 0
  | n + 1, st =>
      let st2 := step config pb st
      if st2.consecutive_divergences = config.consecutive_divergence_limit then
        1
      else if st2.sum_of_squares < config.threshold * total then
        1
      else
        1 + optimize_loop_count config pb total n st2

/-- The initial state of a run: lines 147–153 of src/lib.rs. -/
def init_state (config : Config α) (pb : Problem α M p j s) (init : M) :
    State α M j s :=
  { lambda := config.initial_lambda
    guess := init
    res := pb.residuals init
    sum_of_squares := norm_squared (pb.residuals init)
    consecutive_divergences := 0 }

/-- `optimize` of src/lib.rs: run the loop from the initial state and return
the final guess.  `total` is `N::from_usize(res.len())` computed once from the
initial residual matrix. -/
def optimize (config : Config α) (init : M) (pb : Problem α M p j s) : M :=
  let res := pb.residuals init
  let total : α := (mat_len res : α)
  (optimize_loop config pb total config.max_iterations
    (init_state config pb init)).guess

/-- The number of loop-body executions (hence Hessian/gradient assemblies)
performed by a run of `optimize`. -/
def iterations_executed (config : Config α) (pb : Problem α M p j s)
    (init : M) : ℕ :=
  let res := pb.residuals init
  let total : α := (mat_len res : α)
  optimize_loop_count config pb total config.max_iterations
    (init_state config pb init)

/-- The state is coherent when its residual matrix is the residuals of its
guess and its sum-of-squares is the squared norm of that matrix; this is the
invariant that ties the tracked scalar to the returned model. -/
def coherent (pb : Problem α M p j s) (st : State α M j s) : Prop :=
  st.res = pb.residuals st.guess ∧ st.sum_of_squares = norm_squared st.res

/-! ### Concrete instances used to exercise the theorems -/

/-- A degenerate but admissible configuration: `lambda_convege = 1` keeps the
two trial lambdas equal, which makes the concrete runs easy to evaluate. -/
def cfgA : Config ℚ :=
  { max_iterations := 10
    consecutive_divergence_limit := 5
    initial_lambda := 1
    lambda_convege := 1
    lambda_diverge := 2
    threshold := 0 }

/-- `cfgA` with a zero divergence limit and two iterations. -/
def cfgC2 : Config ℚ :=
  { max_iterations := 2
    consecutive_divergence_limit := 0
    initial_lambda := 1
    lambda_convege := 1
    lambda_diverge := 2
    threshold := 0 }

/-- `cfgA` with a large nonzero threshold. -/
def cfgT : Config ℚ :=
  { max_iterations := 10
    consecutive_divergence_limit := 5
    initial_lambda := 1
    lambda_convege := 1
    lambda_diverge := 2
    threshold := 100 }

/-- `cfgA` with no iterations allowed. -/
def cfg8 : Config ℚ :=
  { max_iterations := 0
    consecutive_divergence_limit := 5
    initial_lambda := 1
    lambda_convege := 1
    lambda_diverge := 2
    threshold := 0 }

/-- The one-parameter one-sample line-fitting problem of the spec scenario
(residual `x - 1`, Jacobian of the negative residual `-1`). -/
def pbGood : Problem ℚ ℚ 1 1 1 :=
  { apply_delta := fun x d => x + d 0
    residuals := fun x => Matrix.of fun _ _ => x - 1
    jacobians := fun _ => [Matrix.of fun _ _ => -1]
    is_finite := fun _ => true }

/-- The same problem with an all-zero Jacobian: the assembled Hessian is
singular, so every trial fails. -/
def pbZero : Problem ℚ ℚ 1 1 1 :=
  { apply_delta := fun x d => x + d 0
    residuals := fun x => Matrix.of fun _ _ => x - 1
    jacobians := fun _ => [0]
    is_finite := fun _ => true }

/-- `pbGood` with a finiteness test that rejects every sum, modelling a
candidate whose sum-of-squares is non-finite. -/
def pbInf : Problem ℚ ℚ 1 1 1 :=
  { apply_delta := fun x d => x + d 0
    residuals := fun x => Matrix.of fun _ _ => x - 1
    jacobians := fun _ => [Matrix.of fun _ _ => -1]
    is_finite := fun _ => false }

/-- A concrete coherent state for `pbGood` at guess `0`: one residual `-1`,
sum-of-squares `1`. -/
def stZ : State ℚ ℚ 1 1 :=
  { lambda := 1
    guess := 0
    res := Matrix.of fun _ _ => -1
    sum_of_squares := 1
    consecutive_divergences := 0 }

/-- `stZ` with the tracked sum-of-squares lowered to `0`, so that the candidate
found from its residuals is strictly worse than the tracked sum. -/
def stZlow : State ℚ ℚ 1 1 :=
  { lambda := 1
    guess := 0
    res := Matrix.of fun _ _ => -1
    sum_of_squares := 0
    consecutive_divergences := 0 }

/-- The constant `1×1` matrix with entry `2`. -/
def mTwo : Matrix (Fin 1) (Fin 1) ℚ := Matrix.of fun _ _ => 2

/-- The constant `1×1` matrix with entry `1/2`. -/
def mHalf : Matrix (Fin 1) (Fin 1) ℚ := Matrix.of fun _ _ => 1/2

/-- The constant `1×1` matrix with entry `1`. -/
def mOne1 : Matrix (Fin 1) (Fin 1) ℚ := Matrix.of fun _ _ => 1

/-- The constant `1`-vector with entry `1`. -/
def vOne : Fin 1 → ℚ := fun _ => 1

/-- The candidate produced from `stZ` by `pbGood` under a configuration with
`lambda_convege = 1`: delta `1/2`, new guess `1/2`, residual `-1/2`,
sum-of-squares `1/4`. -/
def vRef : Vars ℚ ℚ 1 1 :=
  { lam := 1
    ges := 1/2
    res := Matrix.of fun _ _ => -(1/2)
    sum := 1/4 }

/-- A trial tuple with sum-of-squares `1`. -/
def aV : Vars ℚ ℚ 1 1 :=
  { lam := 1, ges := 0, res := Matrix.of fun _ _ => 0, sum := 1 }

/-- A trial tuple with sum-of-squares `2`. -/
def bV : Vars ℚ ℚ 1 1 :=
  { lam := 2, ges := 0, res := Matrix.of fun _ _ => 0, sum := 2 }

/-- A second trial tuple with sum-of-squares `1`, for exercising ties. -/
def aTie : Vars ℚ ℚ 1 1 :=
  { lam := 3, ges := 0, res := Matrix.of fun _ _ => 0, sum := 1 }

/-! ### Basic lemmas about the embedded primitives -/

theorem norm_squared_nonneg (m : Matrix (Fin j) (Fin s) α) :
    0 ≤ norm_squared m :=
  Finset.sum_nonneg fun _ _ => Finset.sum_nonneg fun _ _ => mul_self_nonneg _

theorem norm_squared_fin_one (m : Matrix (Fin 1) (Fin 1) α) :
    norm_squared m = m 0 0 * m 0 0 := by
  simp [norm_squared, Fin.sum_univ_one]

theorem try_inverse_eq_none {A : Matrix (Fin p) (Fin p) α} :
    try_inverse A = none ↔ A.det = 0 := by
  unfold try_inverse
  by_cases hd : A.det = 0 <;> simp [hd]

theorem try_inverse_eq_some {A B : Matrix (Fin p) (Fin p) α}
    (h : try_inverse A = some B) : A.det ≠ 0 ∧ B = A⁻¹ := by
  unfold try_inverse at h
  by_cases hd : A.det = 0
  · simp [hd] at h
  · refine ⟨hd, ?_⟩
    rw [if_neg hd] at h
    rw [Matrix.inv_def, Ring.inverse_eq_inv]
    exact (Option.some.injEq _ _).mp h |>.symm

theorem try_inverse_fin_one (A : Matrix (Fin 1) (Fin 1) α) :
    try_inverse A =
      if A 0 0 = 0 then none else some (Matrix.of fun _ _ => (A 0 0)⁻¹) := by
  unfold try_inverse
  rw [Matrix.det_fin_one, Matrix.adjugate_fin_one]
  by_cases h : A 0 0 = 0
  · rw [if_pos h, if_pos h]
  · rw [if_neg h, if_neg h]
    congr 1
    ext i k
    fin_cases i; fin_cases k
    simp [Matrix.one_apply]

theorem hessian_lambda_diag_apply (hessian : Matrix (Fin p) (Fin p) α)
    (lam : α) (i k : Fin p) :
    hessian_lambda_diag hessian lam i k =
      if i = k then hessian i k * (lam + 1) else hessian i k := by
  unfold hessian_lambda_diag set_diagonal map_diagonal
  by_cases hik : i = k
  · subst hik; simp
  · simp [hik]

/-- Unfolding lemma: the candidate of one iteration is the selection between
the trial at the shrunk lambda and the trial at the current lambda, both taken
over the Hessian/gradient pair assembled from the current guess and
residuals. -/
theorem new_vars_def (config : Config α) (pb : Problem α M p j s)
    (st : State α M j s) :
    new_vars config pb st =
      select_vars
        (lam_ges_res_sum pb st.guess
          (assemble (pb.jacobians st.guess) st.res).1
          (assemble (pb.jacobians st.guess) st.res).2
          (st.lambda * config.lambda_convege))
        (lam_ges_res_sum pb st.guess
          (assemble (pb.jacobians st.guess) st.res).1
          (assemble (pb.jacobians st.guess) st.res).2
          st.lambda) := rfl

/-- Shape of a successful trial: it comes from a successful inversion of the
damped Hessian, its guess is the delta applied to the current guess, its
residual matrix and sum are recomputed from that guess, and the sum passed the
finiteness filter. -/
theorem lam_ges_res_sum_eq_some {pb : Problem α M p j s} {guess : M}
    {hessian : Matrix (Fin p) (Fin p) α} {gradients : Fin p → α} {lam : α}
    {v : Vars α M j s}
    (h : lam_ges_res_sum pb guess hessian gradients lam = some v) :
    ∃ inv_jjl, try_inverse (hessian_lambda_diag hessian lam) = some inv_jjl ∧
      v.lam = lam ∧
      v.ges = pb.apply_delta guess (inv_jjl.mulVec gradients) ∧
      v.res = pb.residuals v.ges ∧
      v.sum = norm_squared v.res ∧
      pb.is_finite v.sum = true := by
  unfold lam_ges_res_sum at h
  rcases hinv : try_inverse (hessian_lambda_diag hessian lam) with _ | inv_jjl
  · rw [hinv] at h
    simp [Option.filter] at h
  · rw [hinv] at h
    simp only [Option.map_some'] at h
    by_cases hfin : pb.is_finite
        (norm_squared (pb.residuals (pb.apply_delta guess
          (inv_jjl.mulVec gradients)))) = true
    · simp only [Option.filter] at h
      rw [if_pos hfin] at h
      obtain rfl := ((Option.some.injEq _ _).mp h).symm
      exact ⟨inv_jjl, rfl, rfl, rfl, rfl, rfl, hfin⟩
    · simp only [Option.filter] at h
      rw [if_neg hfin] at h
      exact absurd h (by simp)

/-- A trial fails exactly when the damped Hessian is singular or the
recomputed sum-of-squares fails the finiteness test. -/
theorem lam_ges_res_sum_eq_none {pb : Problem α M p j s} {guess : M}
    {hessian : Matrix (Fin p) (Fin p) α} {gradients : Fin p → α} {lam : α} :
    lam_ges_res_sum pb guess hessian gradients lam = none ↔
      try_inverse (hessian_lambda_diag hessian lam) = none ∨
      ∃ inv_jjl, try_inverse (hessian_lambda_diag hessian lam) = some inv_jjl ∧
        pb.is_finite (norm_squared (pb.residuals
          (pb.apply_delta guess (inv_jjl.mulVec gradients)))) = false := by
  unfold lam_ges_res_sum
  rcases hinv : try_inverse (hessian_lambda_diag hessian lam) with _ | inv_jjl
  · simp [Option.filter]
  · rcases hfin : pb.is_finite
        (norm_squared (pb.residuals (pb.apply_delta guess
          (inv_jjl.mulVec gradients)))) with _ | _
    · simp [Option.filter, hfin]
    · simp [Option.filter, hfin]

/-- The candidate chosen by `select_vars` is one of the two trials. -/
theorem select_vars_eq_some {a b : Option (Vars α M j s)} {v : Vars α M j s}
    (h : select_vars a b = some v) : a = some v ∨ b = some v := by
  unfold select_vars at h
  rcases a with _ | s_vars <;> rcases b with _ | o_vars
  · exact absurd h (by simp)
  · right; exact h
  · left; exact h
  · obtain rfl := ((Option.some.injEq _ _).mp h).symm
    by_cases hlt : s_vars.sum < o_vars.sum
    · left; rw [if_pos hlt]
    · right; rw [if_neg hlt]

/-- Shape of any adopted-or-rejected candidate: its fields are recomputed from
the guess it proposes, and its lambda is one of the two lambdas tried. -/
theorem new_vars_eq_some {config : Config α} {pb : Problem α M p j s}
    {st : State α M j s} {v : Vars α M j s}
    (h : new_vars config pb st = some v) :
    v.res = pb.residuals v.ges ∧ v.sum = norm_squared v.res ∧
      (v.lam = st.lambda * config.lambda_convege ∨ v.lam = st.lambda) := by
  unfold new_vars at h
  rcases select_vars_eq_some h with h' | h' <;>
    obtain ⟨_, _, hlam, _, hres, hsum, _⟩ := lam_ges_res_sum_eq_some h'
  · exact ⟨hres, hsum, Or.inl hlam⟩
  · exact ⟨hres, hsum, Or.inr hlam⟩

/-! ### Step lemmas -/

variable {config : Config α} {pb : Problem α M p j s}

theorem step_eq_of_none {st : State α M j s}
    (h : new_vars config pb st = none) :
    step config pb st =
      { st with
        lambda := st.lambda * config.lambda_diverge
        consecutive_divergences := st.consecutive_divergences + 1 } := by
  unfold step
  rw [h]

theorem step_eq_of_some_gt {st : State α M j s} {v : Vars α M j s}
    (h : new_vars config pb st = some v)
    (hgt : v.sum > st.sum_of_squares) :
    step config pb st =
      { st with
        lambda := st.lambda * config.lambda_diverge
        consecutive_divergences := st.consecutive_divergences + 1 } := by
  unfold step
  rw [h]
  exact if_pos hgt

theorem step_eq_of_some_le {st : State α M j s} {v : Vars α M j s}
    (h : new_vars config pb st = some v)
    (hle : ¬ v.sum > st.sum_of_squares) :
    step config pb st =
      { lambda := v.lam
        guess := v.ges
        res := v.res
        sum_of_squares := v.sum
        consecutive_divergences := 0 } := by
  unfold step
  rw [h]
  exact if_neg hle

/-- One iteration never increases the tracked sum-of-squares. -/
theorem step_sum_le (config : Config α) (pb : Problem α M p j s)
    (st : State α M j s) :
    (step config pb st).sum_of_squares ≤ st.sum_of_squares := by
  rcases h : new_vars config pb st with _ | v
  · rw [step_eq_of_none h]
  · by_cases hgt : v.sum > st.sum_of_squares
    · rw [step_eq_of_some_gt h hgt]
    · rw [step_eq_of_some_le h hgt]
      exact not_lt.mp hgt

theorem step_coherent {st : State α M j s} (hc : coherent pb st) :
    coherent pb (step config pb st) := by
  rcases h : new_vars config pb st with _ | v
  · rw [step_eq_of_none h]; exact hc
  · by_cases hgt : v.sum > st.sum_of_squares
    · rw [step_eq_of_some_gt h hgt]; exact hc
    · rw [step_eq_of_some_le h hgt]
      obtain ⟨hres, hsum, _⟩ := new_vars_eq_some h
      exact ⟨hres, hsum⟩

/-- A step preserves nonnegativity of the tracked sum-of-squares. -/
theorem step_sum_nonneg {st : State α M j s} (h0 : 0 ≤ st.sum_of_squares) :
    0 ≤ (step config pb st).sum_of_squares := by
  rcases h : new_vars config pb st with _ | v
  · rw [step_eq_of_none h]; exact h0
  · by_cases hgt : v.sum > st.sum_of_squares
    · rw [step_eq_of_some_gt h hgt]; exact h0
    · rw [step_eq_of_some_le h hgt]
      obtain ⟨_, hsum, _⟩ := new_vars_eq_some h
      rw [hsum]
      exact norm_squared_nonneg _

/-- Each iteration either multiplies lambda by `lambda_diverge`, adopts the
smaller trial lambda (the current one times `lambda_convege`), or keeps the
current lambda. -/
theorem step_lambda_cases (config : Config α) (pb : Problem α M p j s)
    (st : State α M j s) :
    (step config pb st).lambda = st.lambda * config.lambda_diverge ∨
    (step config pb st).lambda = st.lambda * config.lambda_convege ∨
    (step config pb st).lambda = st.lambda := by
  rcases h : new_vars config pb st with _ | v
  · rw [step_eq_of_none h]; exact Or.inl rfl
  · by_cases hgt : v.sum > st.sum_of_squares
    · rw [step_eq_of_some_gt h hgt]; exact Or.inl rfl
    · rw [step_eq_of_some_le h hgt]
      obtain ⟨_, _, hlam⟩ := new_vars_eq_some h
      rcases hlam with hlam | hlam
      · exact Or.inr (Or.inl hlam)
      · exact Or.inr (Or.inr hlam)

theorem step_lambda_pos {st : State α M j s}
    (hc : 0 < config.lambda_convege) (hd : 0 < config.lambda_diverge)
    (hl : 0 < st.lambda) : 0 < (step config pb st).lambda := by
  rcases step_lambda_cases config pb st with h | h | h <;> rw [h]
  · exact mul_pos hl hd
  · exact mul_pos hl hc
  · exact hl

/-! ### Loop lemmas -/

theorem optimize_loop_zero {total : α} {st : State α M j s} :
    optimize_loop config pb total 0 st = st := rfl

theorem optimize_loop_succ {total : α} {n : ℕ} {st : State α M j s} :
    optimize_loop config pb total (n + 1) st =
      if (step config pb st).consecutive_divergences =
          config.consecutive_divergence_limit then
        step config pb st
      else if (step config pb st).sum_of_squares <
          config.threshold * total then
        step config pb st
      else
        optimize_loop config pb total n (step config pb st) := rfl

theorem optimize_loop_count_zero {total : α} {st : State α M j s} :
    optimize_loop_count config pb total 0 st = 0 := rfl

theorem optimize_loop_count_succ {total : α} {n : ℕ} {st : State α M j s} :
    optimize_loop_count config pb total (n + 1) st =
      if (step config pb st).consecutive_divergences =
          config.consecutive_divergence_limit then
        1
      else if (step config pb st).sum_of_squares <
          config.threshold * total then
        1
      else
        1 + optimize_loop_count config pb total n (step config pb st) := rfl

theorem optimize_loop_sum_le (config : Config α) (pb : Problem α M p j s)
    (total : α) :
    ∀ (n : ℕ) (st : State α M j s),
      (optimize_loop config pb total n st).sum_of_squares ≤
        st.sum_of_squares
  | 0, _ => le_refl _
  | n + 1, st => by
      rw [optimize_loop_succ]
      by_cases h1 : (step config pb st).consecutive_divergences =
          config.consecutive_divergence_limit
      · rw [if_pos h1]; exact step_sum_le config pb st
      · rw [if_neg h1]
        by_cases h2 : (step config pb st).sum_of_squares <
            config.threshold * total
        · rw [if_pos h2]; exact step_sum_le config pb st
        · rw [if_neg h2]
          exact le_trans (optimize_loop_sum_le config pb total n _)
            (step_sum_le config pb st)

theorem optimize_loop_coherent {total : α} :
    ∀ (n : ℕ) (st : State α M j s), coherent pb st →
      coherent pb (optimize_loop config pb total n st)
  | 0, _, hc => hc
  | n + 1, st, hc => by
      rw [optimize_loop_succ]
      by_cases h1 : (step config pb st).consecutive_divergences =
          config.consecutive_divergence_limit
      · rw [if_pos h1]; exact step_coherent hc
      · rw [if_neg h1]
        by_cases h2 : (step config pb st).sum_of_squares <
            config.threshold * total
        · rw [if_pos h2]; exact step_coherent hc
        · rw [if_neg h2]
          exact optimize_loop_coherent n _ (step_coherent hc)

theorem optimize_loop_lambda_pos {total : α}
    (hc : 0 < config.lambda_convege) (hd : 0 < config.lambda_diverge) :
    ∀ (n : ℕ) (st : State α M j s), 0 < st.lambda →
      0 < (optimize_loop config pb total n st).lambda
  | 0, _, hl => hl
  | n + 1, st, hl => by
      rw [optimize_loop_succ]
      by_cases h1 : (step config pb st).consecutive_divergences =
          config.consecutive_divergence_limit
      · rw [if_pos h1]; exact step_lambda_pos hc hd hl
      · rw [if_neg h1]
        by_cases h2 : (step config pb st).sum_of_squares <
            config.threshold * total
        · rw [if_pos h2]; exact step_lambda_pos hc hd hl
        · rw [if_neg h2]
          exact optimize_loop_lambda_pos hc hd n _ (step_lambda_pos hc hd hl)

theorem optimize_loop_count_le (config : Config α) (pb : Problem α M p j s)
    (total : α) :
    ∀ (n : ℕ) (st : State α M j s),
      optimize_loop_count config pb total n st ≤ n
  | 0, _ => le_refl _
  | n + 1, st => by
      rw [optimize_loop_count_succ]
      by_cases h1 : (step config pb st).consecutive_divergences =
          config.consecutive_divergence_limit
      · rw [if_pos h1]; omega
      · rw [if_neg h1]
        by_cases h2 : (step config pb st).sum_of_squares <
            config.threshold * total
        · rw [if_pos h2]; omega
        · rw [if_neg h2]
          have := optimize_loop_count_le config pb total n (step config pb st)
          omega

/-! ### Evaluation of the concrete instances -/

/-- With an all-zero Jacobian the assembled Hessian is the zero matrix, whose
damped version is singular, so no iteration of `pbZero` ever finds a
candidate. -/
theorem new_vars_pbZero (config : Config ℚ) (st : State ℚ ℚ 1 1) :
    new_vars config pbZero st = none := by
  norm_num [new_vars_def, assemble, column_iter, lam_ges_res_sum, select_vars,
    hessian_lambda_diag, set_diagonal, map_diagonal, pbZero,
    Option.filter, try_inverse_fin_one,
    Matrix.mul_apply, Matrix.mulVec, Matrix.dotProduct, Fin.sum_univ_one,
    List.finRange_succ, List.finRange_zero]

theorem step_pbZero (config : Config ℚ) (st : State ℚ ℚ 1 1) :
    step config pbZero st =
      { st with
        lambda := st.lambda * config.lambda_diverge
        consecutive_divergences := st.consecutive_divergences + 1 } :=
  step_eq_of_none (new_vars_pbZero config st)

/-- Running one trial of `pbGood` from guess `0` with both lambdas equal to
`1` produces the candidate `vRef`, whatever sum and counter are tracked. -/
theorem new_vars_pbGood (config : Config ℚ) (hc : config.lambda_convege = 1)
    (c : ℚ) (d : ℕ) :
    new_vars config pbGood
      { lambda := 1
        guess := 0
        res := Matrix.of fun _ _ => -1
        sum_of_squares := c
        consecutive_divergences := d } = some vRef := by
  norm_num [new_vars_def, assemble, column_iter, lam_ges_res_sum, select_vars,
    hessian_lambda_diag, set_diagonal, map_diagonal, pbGood, vRef, hc,
    norm_squared, Option.filter, try_inverse_fin_one,
    Matrix.mul_apply, Matrix.mulVec, Matrix.dotProduct, Fin.sum_univ_one,
    List.finRange_succ, List.finRange_zero, ← Matrix.ext_iff,
    Fin.forall_fin_one]

/-- Under the always-false finiteness test both trials of `pbInf` are
filtered out even though the damped Hessian inverts. -/
theorem new_vars_pbInf (config : Config ℚ) (hc : config.lambda_convege = 1) :
    new_vars config pbInf stZ = none := by
  norm_num [new_vars_def, assemble, column_iter, lam_ges_res_sum, select_vars,
    hessian_lambda_diag, set_diagonal, map_diagonal, pbInf, stZ, hc,
    norm_squared, Option.filter, try_inverse_fin_one,
    Matrix.mul_apply, Matrix.mulVec, Matrix.dotProduct, Fin.sum_univ_one,
    List.finRange_succ, List.finRange_zero]

theorem try_inverse_two : try_inverse mTwo = some mHalf := by
  rw [try_inverse_fin_one]
  norm_num [mTwo, mHalf, ← Matrix.ext_iff, Fin.forall_fin_one]

/-- The trial of `pbGood` from guess `0` with unit Hessian, unit gradient and
lambda `1` succeeds and produces `vRef`. -/
theorem lam_ges_res_sum_pbGood :
    lam_ges_res_sum pbGood 0 mOne1 vOne 1 = some vRef := by
  norm_num [lam_ges_res_sum, hessian_lambda_diag, set_diagonal, map_diagonal,
    pbGood, vRef, mOne1, vOne, norm_squared, Option.filter,
    try_inverse_fin_one, Matrix.mulVec, Matrix.dotProduct, Fin.sum_univ_one,
    ← Matrix.ext_iff, Fin.forall_fin_one]

/-- The initial state of a run on `pbZero` from guess `0` is `stZ` whenever
the configured initial lambda is `1`. -/
theorem init_state_pbZero (config : Config ℚ)
    (h : config.initial_lambda = 1) :
    init_state config pbZero 0 = stZ := by
  unfold init_state stZ
  norm_num [pbZero, h, norm_squared_fin_one, ← Matrix.ext_iff,
    Fin.forall_fin_one]

/-- Folding the Hessian/gradient accumulator over a list amounts to adding the
per-sample contributions to the initial accumulator. -/
theorem foldl_hessian_gradient
    (l : List (Matrix (Fin p) (Fin j) α × (Fin j → α)))
    (acc : Matrix (Fin p) (Fin p) α × (Fin p → α)) :
    l.foldl
        (fun hg jr => (hg.1 + jr.1 * jr.1.transpose, hg.2 + jr.1.mulVec jr.2))
        acc =
      (acc.1 + (l.map fun jr => jr.1 * jr.1.transpose).sum,
       acc.2 + (l.map fun jr => jr.1.mulVec jr.2).sum) := by
  induction l generalizing acc with
  | nil => simp
  | cons x xs ih =>
      rw [List.foldl_cons, ih, List.map_cons, List.map_cons, List.sum_cons,
        List.sum_cons]
      simp [add_assoc]

/-! ### Claims -/

/-- C1: For every run of `optimize`, the tracked sum-of-squares is
non-increasing across the whole run: a candidate is adopted only when its
sum-of-squares is less than or equal to the current one (the divergence
counter is reset to zero exactly in that case, and then the candidate's
lambda, guess, residual matrix and sum are installed), and on every iteration
where no candidate is adopted the guess, residual matrix and sum-of-squares
are unchanged; hence the returned model's sum-of-squares is no worse than the
initial guess's. -/
theorem C1_sum_nonincreasing (config : Config α) (pb : Problem α M p j s) :
    (∀ st : State α M j s,
        (step config pb st).sum_of_squares ≤ st.sum_of_squares)
    ∧ (∀ (st : State α M j s) (v : Vars α M j s),
        new_vars config pb st = some v → v.sum ≤ st.sum_of_squares →
          step config pb st =
            { lambda := v.lam
              guess := v.ges
              res := v.res
              sum_of_squares := v.sum
              consecutive_divergences := 0 })
    ∧ (∀ st : State α M j s,
        (step config pb st).consecutive_divergences = 0 ↔
          ∃ v, new_vars config pb st = some v ∧ v.sum ≤ st.sum_of_squares)
    ∧ (∀ st : State α M j s,
        (step config pb st).consecutive_divergences ≠ 0 →
          (step config pb st).guess = st.guess ∧
          (step config pb st).res = st.res ∧
          (step config pb st).sum_of_squares = st.sum_of_squares)
    ∧ (∀ init : M,
        norm_squared (pb.residuals (optimize config init pb)) ≤
          norm_squared (pb.residuals init)) := by
  refine ⟨step_sum_le config pb, ?_, ?_, ?_, ?_⟩
  · intro st v h hle
    exact step_eq_of_some_le h (not_lt.mpr hle)
  · intro st
    constructor
    · intro h
      rcases hv : new_vars config pb st with _ | v
      · rw [step_eq_of_none hv] at h
        exact absurd h (Nat.succ_ne_zero _)
      · by_cases hgt : v.sum > st.sum_of_squares
        · rw [step_eq_of_some_gt hv hgt] at h
          exact absurd h (Nat.succ_ne_zero _)
        · exact ⟨v, rfl, not_lt.mp hgt⟩
    · rintro ⟨v, hv, hle⟩
      rw [step_eq_of_some_le hv (not_lt.mpr hle)]
  · intro st h
    rcases hv : new_vars config pb st with _ | v
    · rw [step_eq_of_none hv]
      exact ⟨rfl, rfl, rfl⟩
    · by_cases hgt : v.sum > st.sum_of_squares
      · rw [step_eq_of_some_gt hv hgt]
        exact ⟨rfl, rfl, rfl⟩
      · rw [step_eq_of_some_le hv hgt] at h
        exact absurd rfl h
  · intro init
    have hcoh : coherent pb
        (optimize_loop config pb ((mat_len (pb.residuals init) : ℕ) : α)
          config.max_iterations (init_state config pb init)) :=
      optimize_loop_coherent config.max_iterations _ ⟨rfl, rfl⟩
    have hle : (optimize_loop config pb
          ((mat_len (pb.residuals init) : ℕ) : α)
          config.max_iterations (init_state config pb init)).sum_of_squares ≤
        (init_state config pb init).sum_of_squares :=
      optimize_loop_sum_le config pb _ config.max_iterations _
    obtain ⟨h1, h2⟩ := hcoh
    show norm_squared (pb.residuals
        (optimize_loop config pb ((mat_len (pb.residuals init) : ℕ) : α)
          config.max_iterations (init_state config pb init)).guess) ≤
      norm_squared (pb.residuals init)
    rw [← h1, ← h2]
    exact hle

/-- C1 witness: on the concrete line-fitting problem the candidate `vRef`
with sum `1/4 ≤ 1` is adopted from `stZ`, and on the zero-Jacobian problem the
iteration from `stZ` adopts nothing and leaves guess, residuals and sum
unchanged. -/
theorem C1_witness :
    (new_vars cfgA pbGood stZ = some vRef ∧
      vRef.sum ≤ stZ.sum_of_squares ∧
      step cfgA pbGood stZ =
        { lambda := vRef.lam
          guess := vRef.ges
          res := vRef.res
          sum_of_squares := vRef.sum
          consecutive_divergences := 0 })
    ∧ ((step cfgA pbZero stZ).consecutive_divergences ≠ 0 ∧
      (step cfgA pbZero stZ).guess = stZ.guess ∧
      (step cfgA pbZero stZ).res = stZ.res ∧
      (step cfgA pbZero stZ).sum_of_squares = stZ.sum_of_squares) := by
  have hnv : new_vars cfgA pbGood stZ = some vRef :=
    new_vars_pbGood cfgA rfl 1 0
  have hle : vRef.sum ≤ stZ.sum_of_squares := by norm_num [vRef, stZ]
  have hne : (step cfgA pbZero stZ).consecutive_divergences ≠ 0 := by
    rw [step_pbZero]
    norm_num [stZ]
  exact ⟨⟨hnv, hle, (C1_sum_nonincreasing cfgA pbGood).2.1 stZ vRef hnv hle⟩,
    hne, (C1_sum_nonincreasing cfgA pbZero).2.2.2.1 stZ hne⟩

/-- C2 counterexample: with `consecutive_divergence_limit = 0` the loop does
NOT stop when the counter is incremented.  On the zero-Jacobian problem the
very first iteration fails (no candidate), yet the run executes two loop
bodies — two Hessian/gradient assemblies — because the incremented counter
`1` never equals the limit `0`. -/
theorem C2_counterexample :
    cfgC2.consecutive_divergence_limit = 0 ∧
    new_vars cfgC2 pbZero (init_state cfgC2 pbZero 0) = none ∧
    iterations_executed cfgC2 pbZero (0:ℚ) = 2 := by
  refine ⟨rfl, new_vars_pbZero _ _, ?_⟩
  show optimize_loop_count cfgC2 pbZero
      ((mat_len (pbZero.residuals 0) : ℕ) : ℚ) cfgC2.max_iterations
      (init_state cfgC2 pbZero 0) = 2
  rw [init_state_pbZero cfgC2 rfl]
  norm_num [optimize_loop_count_succ, optimize_loop_count_zero, step_pbZero,
    mat_len, cfgC2, stZ]

/-- C2 amended: whenever `consecutive_divergence_limit = 0`, the
divergence-limit stop fires exactly at the end of an iteration that adopts a
candidate (the counter is reset to `0`, which equals the limit), so the run
stops right after its first adopting iteration; an iteration that adopts
nothing increments the counter to a nonzero value and does not trigger the
divergence stop, so the run continues past a failed first iteration (subject
only to the threshold stop and the iteration cap). -/
theorem C2_amended_limit_zero (config : Config α) (pb : Problem α M p j s)
    (total : α) (h0 : config.consecutive_divergence_limit = 0) (n : ℕ)
    (st : State α M j s) :
    ((step config pb st).consecutive_divergences = 0 →
      optimize_loop config pb total (n + 1) st = step config pb st ∧
      optimize_loop_count config pb total (n + 1) st = 1)
    ∧ ((step config pb st).consecutive_divergences ≠ 0 →
      optimize_loop config pb total (n + 1) st =
        (if (step config pb st).sum_of_squares < config.threshold * total
          then step config pb st
          else optimize_loop config pb total n (step config pb st)) ∧
      optimize_loop_count config pb total (n + 1) st =
        (if (step config pb st).sum_of_squares < config.threshold * total
          then 1
          else 1 +
            optimize_loop_count config pb total n (step config pb st))) := by
  constructor
  · intro h
    have h' : (step config pb st).consecutive_divergences =
        config.consecutive_divergence_limit := by rw [h, h0]
    rw [optimize_loop_succ, optimize_loop_count_succ, if_pos h', if_pos h']
    exact ⟨rfl, rfl⟩
  · intro h
    have h' : ¬ (step config pb st).consecutive_divergences =
        config.consecutive_divergence_limit := by rw [h0]; exact h
    rw [optimize_loop_succ, optimize_loop_count_succ, if_neg h', if_neg h']
    exact ⟨rfl, rfl⟩

/-- C2 witness: under `cfgC2` (divergence limit `0`) an adopting first
iteration on the line-fitting problem stops the loop after one body, while a
failing first iteration on the zero-Jacobian problem does not fire the
divergence stop and the loop recurses. -/
theorem C2_witness :
    ((step cfgC2 pbGood stZ).consecutive_divergences = 0 ∧
      optimize_loop cfgC2 pbGood 1 1 stZ = step cfgC2 pbGood stZ ∧
      optimize_loop_count cfgC2 pbGood 1 1 stZ = 1)
    ∧ ((step cfgC2 pbZero stZ).consecutive_divergences ≠ 0 ∧
      optimize_loop cfgC2 pbZero 1 1 stZ =
        (if (step cfgC2 pbZero stZ).sum_of_squares < cfgC2.threshold * 1
          then step cfgC2 pbZero stZ
          else optimize_loop cfgC2 pbZero 1 0 (step cfgC2 pbZero stZ))) := by
  have hnv : new_vars cfgC2 pbGood stZ = some vRef :=
    new_vars_pbGood cfgC2 rfl 1 0
  have hstep : step cfgC2 pbGood stZ =
      { lambda := vRef.lam
        guess := vRef.ges
        res := vRef.res
        sum_of_squares := vRef.sum
        consecutive_divergences := 0 } :=
    step_eq_of_some_le hnv (by norm_num [vRef, stZ])
  have h0 : (step cfgC2 pbGood stZ).consecutive_divergences = 0 := by
    rw [hstep]
  have hne : (step cfgC2 pbZero stZ).consecutive_divergences ≠ 0 := by
    rw [step_pbZero]
    norm_num [stZ]
  obtain ⟨ha, hb⟩ :=
    (C2_amended_limit_zero cfgC2 pbGood 1 rfl 0 stZ).1 h0
  obtain ⟨hc, _⟩ :=
    (C2_amended_limit_zero cfgC2 pbZero 1 rfl 0 stZ).2 hne
  exact ⟨⟨h0, ha, hb⟩, hne, hc⟩

/-- C3: In each iteration, the Hessian approximation and gradient are
assembled by zipping the Jacobian sequence in order with the columns of the
current residual matrix and accumulating from zero: the fold equals the sum
over samples of `J·Jᵀ` and the sum over samples of `J·r`, and the iteration's
candidate selection consumes exactly this assembled pair. -/
theorem C3_assembly (config : Config α) (pb : Problem α M p j s)
    (st : State α M j s) :
    assemble (pb.jacobians st.guess) st.res =
      ((((pb.jacobians st.guess).zip (column_iter st.res)).map
          fun jr => jr.1 * jr.1.transpose).sum,
        (((pb.jacobians st.guess).zip (column_iter st.res)).map
          fun jr => jr.1.mulVec jr.2).sum)
    ∧ new_vars config pb st =
        select_vars
          (lam_ges_res_sum pb st.guess
            (assemble (pb.jacobians st.guess) st.res).1
            (assemble (pb.jacobians st.guess) st.res).2
            (st.lambda * config.lambda_convege))
          (lam_ges_res_sum pb st.guess
            (assemble (pb.jacobians st.guess) st.res).1
            (assemble (pb.jacobians st.guess) st.res).2
            st.lambda) := by
  constructor
  · unfold assemble
    rw [foldl_hessian_gradient]
    simp
  · exact new_vars_def config pb st

/-- C4: For every trial damping value `lam`, the damped Hessian multiplies
each diagonal entry of the assembled Hessian by `(lam + 1)` and leaves every
off-diagonal entry unchanged; a successful inversion returns the true inverse
of the damped Hessian; and a successful trial applies exactly the delta
`inverse(damped Hessian) · gradient` to the current guess. -/
theorem C4_damping_and_solve (pb : Problem α M p j s) :
    (∀ (hessian : Matrix (Fin p) (Fin p) α) (lam : α) (i k : Fin p),
        hessian_lambda_diag hessian lam i k =
          if i = k then hessian i k * (lam + 1) else hessian i k)
    ∧ (∀ A B : Matrix (Fin p) (Fin p) α, try_inverse A = some B →
        B = A⁻¹ ∧ B * A = 1 ∧ A * B = 1)
    ∧ (∀ (guess : M) (hessian : Matrix (Fin p) (Fin p) α)
        (gradients : Fin p → α) (lam : α) (v : Vars α M j s),
        lam_ges_res_sum pb guess hessian gradients lam = some v →
        ∃ inv_jjl,
          try_inverse (hessian_lambda_diag hessian lam) = some inv_jjl ∧
          inv_jjl = (hessian_lambda_diag hessian lam)⁻¹ ∧
          v.ges = pb.apply_delta guess (inv_jjl.mulVec gradients)) := by
  refine ⟨hessian_lambda_diag_apply, ?_, ?_⟩
  · intro A B h
    obtain ⟨hdet, hB⟩ := try_inverse_eq_some h
    subst hB
    exact ⟨rfl, Matrix.nonsing_inv_mul A (isUnit_iff_ne_zero.mpr hdet),
      Matrix.mul_nonsing_inv A (isUnit_iff_ne_zero.mpr hdet)⟩
  · intro guess hessian gradients lam v h
    obtain ⟨inv_jjl, hinv, _, hges, _⟩ := lam_ges_res_sum_eq_some h
    exact ⟨inv_jjl, hinv, (try_inverse_eq_some hinv).2, hges⟩

/-- C4 witness: the damped unit Hessian at lambda `1` is the matrix `2`,
whose inversion succeeds with the true inverse `1/2`, and the concrete trial
of the line-fitting problem applies the delta solved from it. -/
theorem C4_witness :
    (try_inverse mTwo = some mHalf ∧ mHalf = mTwo⁻¹ ∧ mHalf * mTwo = 1 ∧
      mTwo * mHalf = 1)
    ∧ (lam_ges_res_sum pbGood 0 mOne1 vOne 1 = some vRef ∧
      ∃ inv_jjl,
        try_inverse (hessian_lambda_diag mOne1 1) = some inv_jjl ∧
        inv_jjl = (hessian_lambda_diag mOne1 1)⁻¹ ∧
        vRef.ges = pbGood.apply_delta 0 (inv_jjl.mulVec vOne)) := by
  refine ⟨⟨try_inverse_two,
      (C4_damping_and_solve pbGood).2.1 mTwo mHalf try_inverse_two⟩,
    lam_ges_res_sum_pbGood,
    (C4_damping_and_solve pbGood).2.2 0 mOne1 vOne 1 vRef
      lam_ges_res_sum_pbGood⟩

/-- C5: In candidate selection, when both trials succeed the smaller-lambda
trial (tested first) is chosen only on a strictly smaller sum-of-squares; on a
tie the current-lambda trial is kept; when exactly one trial succeeds it is
used; and the iteration selects between the smaller-lambda trial and the
current-lambda trial in that order. -/
theorem C5_selection (config : Config α) (pb : Problem α M p j s) :
    (∀ a b : Vars α M j s, a.sum < b.sum →
        select_vars (some a) (some b) = some a)
    ∧ (∀ a b : Vars α M j s, ¬ a.sum < b.sum →
        select_vars (some a) (some b) = some b)
    ∧ (∀ a b : Vars α M j s, a.sum = b.sum →
        select_vars (some a) (some b) = some b)
    ∧ (∀ a : Vars α M j s, select_vars (some a) none = some a)
    ∧ (∀ b : Vars α M j s, select_vars none (some b) = some b)
    ∧ select_vars (none : Option (Vars α M j s)) none = none
    ∧ (∀ st : State α M j s,
        new_vars config pb st =
          select_vars
            (lam_ges_res_sum pb st.guess
              (assemble (pb.jacobians st.guess) st.res).1
              (assemble (pb.jacobians st.guess) st.res).2
              (st.lambda * config.lambda_convege))
            (lam_ges_res_sum pb st.guess
              (assemble (pb.jacobians st.guess) st.res).1
              (assemble (pb.jacobians st.guess) st.res).2
              st.lambda)) := by
  refine ⟨?_, ?_, ?_, fun _ => rfl, fun _ => rfl, rfl,
    fun st => new_vars_def config pb st⟩
  · intro a b hlt
    exact congrArg some (if_pos hlt)
  · intro a b hlt
    exact congrArg some (if_neg hlt)
  · intro a b heq
    exact congrArg some (if_neg (by rw [heq]; exact lt_irrefl _))

/-- C5 witness: concrete selections with sums `1` versus `2` and a `1`-`1`
tie, exercising the strict comparison and the tie-break toward the second
trial. -/
theorem C5_witness :
    (select_vars (some aV) (some bV) = some aV)
    ∧ (select_vars (some bV) (some aV) = some aV)
    ∧ (select_vars (some aV) (some aTie) = some aTie) := by
  refine ⟨(C5_selection cfgA pbGood).1 aV bV (by norm_num [aV, bV]),
    (C5_selection cfgA pbGood).2.1 bV aV (by norm_num [aV, bV]),
    (C5_selection cfgA pbGood).2.2.1 aV aTie (by norm_num [aV, aTie])⟩

/-- C6: Whenever an iteration produces no adopted candidate — either both
trials fail (the trial-failure condition is exactly: singular damped Hessian,
or the recomputed sum-of-squares rejected by the finiteness test, the two
handled identically) or the best candidate's sum strictly exceeds the current
one — lambda is multiplied by `lambda_diverge` exactly once (not set to the
candidate's lambda), the divergence counter is incremented by one, and the
guess, residual matrix and sum-of-squares are unchanged. -/
theorem C6_divergence_branch (config : Config α) (pb : Problem α M p j s) :
    (∀ st : State α M j s, new_vars config pb st = none →
        step config pb st =
          { st with
            lambda := st.lambda * config.lambda_diverge
            consecutive_divergences := st.consecutive_divergences + 1 })
    ∧ (∀ (st : State α M j s) (v : Vars α M j s),
        new_vars config pb st = some v → v.sum > st.sum_of_squares →
        step config pb st =
          { st with
            lambda := st.lambda * config.lambda_diverge
            consecutive_divergences := st.consecutive_divergences + 1 })
    ∧ (∀ (guess : M) (hessian : Matrix (Fin p) (Fin p) α)
        (gradients : Fin p → α) (lam : α),
        lam_ges_res_sum pb guess hessian gradients lam = none ↔
          try_inverse (hessian_lambda_diag hessian lam) = none ∨
          ∃ inv_jjl,
            try_inverse (hessian_lambda_diag hessian lam) = some inv_jjl ∧
            pb.is_finite (norm_squared (pb.residuals
              (pb.apply_delta guess (inv_jjl.mulVec gradients)))) = false) :=
  ⟨fun _ h => step_eq_of_none h,
    fun _ _ h hgt => step_eq_of_some_gt h hgt,
    fun _ _ _ _ => lam_ges_res_sum_eq_none⟩

/-- C6 witness: the zero-Jacobian problem (singular damped Hessian), the
rejected-candidate case with tracked sum `0` against candidate sum `1/4`, and
the always-false finiteness test all take the divergence branch from `stZ`,
leaving guess, residuals and sum unchanged. -/
theorem C6_witness :
    (step cfgA pbZero stZ =
      { stZ with
        lambda := stZ.lambda * cfgA.lambda_diverge
        consecutive_divergences := stZ.consecutive_divergences + 1 })
    ∧ (new_vars cfgA pbGood stZlow = some vRef ∧
      vRef.sum > stZlow.sum_of_squares ∧
      step cfgA pbGood stZlow =
        { stZlow with
          lambda := stZlow.lambda * cfgA.lambda_diverge
          consecutive_divergences := stZlow.consecutive_divergences + 1 })
    ∧ (new_vars cfgA pbInf stZ = none ∧
      step cfgA pbInf stZ =
        { stZ with
          lambda := stZ.lambda * cfgA.lambda_diverge
          consecutive_divergences := stZ.consecutive_divergences + 1 }) := by
  have h1 : new_vars cfgA pbZero stZ = none := new_vars_pbZero cfgA stZ
  have h2 : new_vars cfgA pbGood stZlow = some vRef :=
    new_vars_pbGood cfgA rfl 0 0
  have h2gt : vRef.sum > stZlow.sum_of_squares := by norm_num [vRef, stZlow]
  have h3 : new_vars cfgA pbInf stZ = none := new_vars_pbInf cfgA rfl
  exact ⟨(C6_divergence_branch cfgA pbZero).1 stZ h1,
    ⟨h2, h2gt, (C6_divergence_branch cfgA pbGood).2.1 stZlow vRef h2 h2gt⟩,
    h3, (C6_divergence_branch cfgA pbInf).1 stZ h3⟩

/-- C7: After each iteration's acceptance step, the run terminates when
`sum_of_squares < threshold * total`; the `total` used by `optimize` is the
number of scalar entries of the initial residual matrix, computed once before
the loop; and with `threshold = 0` the early stop never fires from a state
with nonnegative tracked sum. -/
theorem C7_threshold_stop (config : Config α) (pb : Problem α M p j s) :
    (∀ (total : α) (n : ℕ) (st : State α M j s),
        (step config pb st).sum_of_squares < config.threshold * total →
        optimize_loop config pb total (n + 1) st = step config pb st)
    ∧ (∀ init : M,
        optimize config init pb =
          (optimize_loop config pb
            ((mat_len (pb.residuals init) : ℕ) : α)
            config.max_iterations (init_state config pb init)).guess ∧
        mat_len (pb.residuals init) =
          Fintype.card (Fin j) * Fintype.card (Fin s))
    ∧ (config.threshold = 0 → ∀ (total : α) (st : State α M j s),
        0 ≤ st.sum_of_squares →
        ¬ (step config pb st).sum_of_squares < config.threshold * total) := by
  refine ⟨?_, ?_, ?_⟩
  · intro total n st h
    rw [optimize_loop_succ]
    by_cases h1 : (step config pb st).consecutive_divergences =
        config.consecutive_divergence_limit
    · rw [if_pos h1]
    · rw [if_neg h1, if_pos h]
  · intro init
    exact ⟨rfl, by simp [mat_len]⟩
  · intro h0 total st hnn
    rw [h0, zero_mul]
    exact not_lt.mpr (step_sum_nonneg hnn)

/-- C7 witness: with threshold `100` the loop from `stZ` on the zero-Jacobian
problem stops right after one iteration (its sum `1` is below `100 · 1`),
while with threshold `0` the early stop cannot fire from `stZ`. -/
theorem C7_witness :
    (optimize_loop cfgT pbZero 1 1 stZ = step cfgT pbZero stZ)
    ∧ ¬ (step cfgA pbZero stZ).sum_of_squares < cfgA.threshold * 1 := by
  have h : (step cfgT pbZero stZ).sum_of_squares < cfgT.threshold * 1 := by
    rw [step_pbZero]
    norm_num [stZ, cfgT]
  exact ⟨(C7_threshold_stop cfgT pbZero).1 1 0 stZ h,
    (C7_threshold_stop cfgA pbZero).2.2 rfl 1 stZ (by norm_num [stZ])⟩

/-- C8: If `threshold = 0` and `max_iterations = 0`, `optimize` returns the
initial model unchanged: the loop body never executes and the returned value
is the initial guess. -/
theorem C8_zero_iterations (config : Config α) (pb : Problem α M p j s)
    (init : M) (h1 : config.threshold = 0) (h2 : config.max_iterations = 0) :
    optimize config init pb = init ∧
    iterations_executed config pb init = 0 := by
  constructor
  · show (optimize_loop config pb ((mat_len (pb.residuals init) : ℕ) : α)
      config.max_iterations (init_state config pb init)).guess = init
    rw [h2]
    rfl
  · show optimize_loop_count config pb
      ((mat_len (pb.residuals init) : ℕ) : α)
      config.max_iterations (init_state config pb init) = 0
    rw [h2]
    rfl

/-- C8 witness: the zero-iteration configuration returns the initial guess
`0` and executes no loop body on the concrete problem. -/
theorem C8_witness :
    optimize cfg8 (0:ℚ) pbZero = 0 ∧
    iterations_executed cfg8 pbZero (0:ℚ) = 0 :=
  C8_zero_iterations cfg8 pbZero 0 rfl rfl

/-- C9: For every configuration — including the degenerate
`lambda_diverge = 1` (no hypothesis restricts it) — `optimize` terminates: it
executes the loop body at most `max_iterations` times (termination itself is
intrinsic to the total function `optimize`) and always returns the final
state's guess as its model. -/
theorem C9_terminates (config : Config α) (pb : Problem α M p j s)
    (init : M) :
    iterations_executed config pb init ≤ config.max_iterations ∧
    optimize config init pb =
      (optimize_loop config pb ((mat_len (pb.residuals init) : ℕ) : α)
        config.max_iterations (init_state config pb init)).guess :=
  ⟨optimize_loop_count_le config pb _ config.max_iterations _, rfl⟩

/-- C10: If `initial_lambda > 0`, `lambda_convege > 0` and
`lambda_diverge > 0`, then lambda stays strictly positive at every point of
the run — every step either multiplies it by `lambda_diverge` or by
`lambda_convege` or leaves it unchanged. -/
theorem C10_lambda_positive (config : Config α) (pb : Problem α M p j s)
    (h1 : 0 < config.initial_lambda) (hc : 0 < config.lambda_convege)
    (hd : 0 < config.lambda_diverge) :
    (∀ st : State α M j s,
        (step config pb st).lambda = st.lambda * config.lambda_diverge ∨
        (step config pb st).lambda = st.lambda * config.lambda_convege ∨
        (step config pb st).lambda = st.lambda)
    ∧ (∀ st : State α M j s, 0 < st.lambda → 0 < (step config pb st).lambda)
    ∧ (∀ (total : α) (n : ℕ) (st : State α M j s), 0 < st.lambda →
        0 < (optimize_loop config pb total n st).lambda)
    ∧ (∀ (init : M) (total : α) (n : ℕ),
        0 < (optimize_loop config pb total n
          (init_state config pb init)).lambda) :=
  ⟨step_lambda_cases config pb,
    fun _ hl => step_lambda_pos hc hd hl,
    fun total n _ hl => optimize_loop_lambda_pos hc hd n _ hl,
    fun _ total n => optimize_loop_lambda_pos hc hd n _ h1⟩

/-- C10 witness: with all three constants positive in `cfgA`, lambda is
positive after one step from `stZ` and after three loop iterations of the
concrete run. -/
theorem C10_witness :
    0 < (step cfgA pbZero stZ).lambda ∧
    0 < (optimize_loop cfgA pbZero 1 3 (init_state cfgA pbZero 0)).lambda := by
  have h := C10_lambda_positive cfgA pbZero (by norm_num [cfgA])
    (by norm_num [cfgA]) (by norm_num [cfgA])
  exact ⟨h.2.1 stZ (by norm_num [stZ]), h.2.2.2 0 1 3⟩

end LM
